import Mathlib

/-!
Verification development for a webhook service that coordinates external
chat resources (threads, a banner message, identity links) through a
key-value store and a remote resource gateway.

The definitions below are a shallow embedding of the Python handlers:

* `save_link`, `read_player_link`, `delete_player_link`, `unlink_cmd`
  embed `api/discord_interactions.py` (identity link store);
* `pair_tag`, `lookup_discord_id`, `negotiate_go`, `ensure_unarchived`,
  `route_match_event` embed the match flow of `api/showdown.py`;
* `list_messages`, `ensure_lfg_message`, `clear_lfg_message` embed the
  LFG-banner flow of `api/showdown.py`;
* `snowflake_ms`, `delete_thread`, `archivedPass`, `u_scan_loop`,
  `cleanup` embed `api/cleanup_threads.py` (retention sweeper).

Modelling conventions: the Redis REST store is a total function from keys
to optional values; the distinct f-string key prefixes used by the code
(`playerlink:`, `userlink:`, `usernamelink:`, `usermeta:`, `threadpair:`)
are modelled by constructors of an inductive `Key`, which is faithful
because the textual prefixes are pairwise non-overlapping.  A JSON blob
written by the code is modelled by a structured value (`SVal.vblob`,
`SVal.vmeta`) whose decoder mirrors the code paths that re-parse it; a
plain stored string is `SVal.vstr`.  Python truthiness of a fetched value
(None or empty string are falsy) is modelled by `strTruthy` / `svTruthy`.
Network interactions with the Discord gateway are recorded as explicit
call traces, and gateway responses are supplied as explicit inputs
(response scripts, acceptance predicates, status functions), so every
control path of the handlers is represented.
-/

/-! ### String primitives

The Python string operations used by the handlers (`.strip()`,
`.lower()`, `sorted`, `int(...)`, `str(...)`) are translated directly as
functions on the character list of a string, with Python semantics
restricted to the ASCII range the program actually handles. -/

/-- ASCII lower-casing of one character (`str.lower`). -/
def lower_char (c : Char) : Char :=
  if 65 ≤ c.toNat && c.toNat ≤ 90 then Char.ofNat (c.toNat + 32) else c

/-- `str.lower`. -/
def str_lower (s : String) : String := ⟨s.data.map lower_char⟩

/-- The whitespace characters stripped by `str.strip()`. -/
def is_ws (c : Char) : Bool :=
  c.toNat = 32 || c.toNat = 9 || c.toNat = 10 || c.toNat = 13

/-- `str.strip()`: drop whitespace from both ends. -/
def str_trim (s : String) : String :=
  ⟨((s.data.dropWhile is_ws).reverse.dropWhile is_ws).reverse⟩

/-- Lexicographic comparison of character lists by code point, the
order Python uses to sort strings. -/
def str_lt_list : List Char → List Char → Bool
  | [], [] => false
  | [], _ :: _ => true
  | _ :: _, [] => false
  | a :: as, b :: bs =>
    if a.toNat < b.toNat then true
    else if b.toNat < a.toNat then false
    else str_lt_list as bs

def str_lt (a b : String) : Bool := str_lt_list a.data b.data

/-- `int(s)` restricted to digit strings: `none` when `s` is empty or
contains a non-digit (the `except` branch of the callers). -/
def digit_val (c : Char) : Option Nat :=
  if 48 ≤ c.toNat && c.toNat ≤ 57 then some (c.toNat - 48) else none

def str_to_nat? (s : String) : Option Nat :=
  if s.data.isEmpty then none
  else s.data.foldl (fun acc c =>
    match acc, digit_val c with
    | some a, some d => some (a * 10 + d)
    | _, _ => none) (some 0)

/-- Decimal rendering of a natural number (`str(n)`), with fuel to keep
the recursion structural. -/
def nat_to_str_aux : Nat → Nat → List Char
  | 0, _ => []
  | fuel + 1, n =>
    if n < 10 then [Char.ofNat (48 + n)]
    else nat_to_str_aux fuel (n / 10) ++ [Char.ofNat (48 + n % 10)]

def nat_to_str (n : Nat) : String := ⟨nat_to_str_aux (n + 1) n⟩

/-- Store keys.  Each constructor stands for one of the pairwise
non-overlapping f-string key prefixes used by the code. -/
inductive Key where
  | playerlink (name : String)
  | userlink (uid : String)
  | usernamelink (uname : String)
  | usermeta (uid : String)
  | threadpair (pair : String)
  deriving DecidableEq, Repr

/-- Stored values: a plain string, the player blob
`{"id":…,"username":…,"display":…}` written by `save_link`, or the meta
blob `{"username":…,"display":…,"player":…}`. -/
inductive SVal where
  | vstr (s : String)
  | vblob (id username display : String)
  | vmeta (username display player : String)
  deriving DecidableEq, Repr

def Store := Key → Option SVal

def emptyStore : Store := fun _ => none

def setStore (k : Key) (v : SVal) (st : Store) : Store :=
  fun q => if q = k then some v else st q

def delStore (k : Key) (st : Store) : Store :=
  fun q => if q = k then none else st q

/-- Python truthiness of an optional fetched string (`None` and `""` are
falsy). -/
def strTruthy (o : Option String) : Bool :=
  o.getD "" != ""

/-- Python truthiness of a raw fetched store value: absent or empty
string is falsy, any blob serializes to a nonempty string. -/
def svTruthy : Option SVal → Bool
  | none => false
  | some (.vstr s) => s != ""
  | some _ => true

/-! ## Identity link store (`api/discord_interactions.py`) -/

inductive LinkResult where
  | alreadyLinkedUser
  | alreadyLinkedPlayer
  | ok
  deriving DecidableEq, Repr

/-- `save_link` from `api/discord_interactions.py`: reject if the user
already has any link, reject if the playername is already taken,
otherwise write the player blob, the reverse key, the username key (when
the username is nonempty) and the meta blob. -/
def save_link (playername user_id display_name username : String)
    (st : Store) : LinkResult × Store :=
  let player_norm := str_trim playername
  let player_lc := str_lower player_norm
  let uname_lc := str_lower (str_trim username)
  if svTruthy (st (.userlink user_id)) then (.alreadyLinkedUser, st)
  else if svTruthy (st (.playerlink player_lc)) then (.alreadyLinkedPlayer, st)
  else
    let st1 := setStore (.playerlink player_lc)
      (.vblob user_id username display_name) st
    let st2 := setStore (.userlink user_id) (.vstr player_norm) st1
    let st3 := if uname_lc != "" then
        setStore (.usernamelink uname_lc) (.vstr player_norm) st2
      else st2
    let st4 := setStore (.usermeta user_id)
      (.vmeta username display_name player_norm) st3
    (.ok, st4)

/-- Decoded identity of a linked player, mirroring the dict returned by
`read_player_link` (fields absent from a legacy value are `none`,
mirroring `dict.get`). -/
structure PlayerInfo where
  id : Option String
  username : Option String
  display : Option String
  deriving DecidableEq, Repr

/-- `read_player_link`: an absent or empty value is no link; a plain
nonempty string is a legacy bare id; a player blob decodes to its
fields.  (A meta blob under a player key never occurs in program states;
it decodes like a dict without an `id` entry.) -/
def read_player_link (playername : String) (st : Store) : Option PlayerInfo :=
  match st (.playerlink (str_lower (str_trim playername))) with
  | none => none
  | some (.vstr s) => if s = "" then none else some ⟨some s, none, none⟩
  | some (.vblob i u d) => some ⟨some i, some u, some d⟩
  | some (.vmeta u d _) => some ⟨none, some u, some d⟩

/-- `delete_player_link`: read the link, delete the player key, then
delete the reverse, meta and username keys that the decoded info makes
reachable. -/
def delete_player_link (playername : String) (st : Store) : Bool × Store :=
  let info := read_player_link playername st
  let player_lc := str_lower (str_trim playername)
  let removed := (st (.playerlink player_lc)).isSome
  let st1 := delStore (.playerlink player_lc) st
  match info with
  | none => (removed, st1)
  | some i =>
    let uid := i.id.getD ""
    let st2 := if uid != "" then
        delStore (.usermeta uid) (delStore (.userlink uid) st1)
      else st1
    let uname := str_lower (str_trim (i.username.getD ""))
    let st3 := if uname != "" then
        delStore (.usernamelink uname) st2
      else st2
    (removed, st3)

inductive UnlinkResult where
  | notFound
  | forbidden
  | ok
  deriving DecidableEq, Repr

/-- The `/unlink` command path of `handler.do_POST` in
`api/discord_interactions.py`: not-found when no mapping exists, a
permission check against the stored owner id, then
`delete_player_link`. -/
def unlink_cmd (playername requester : String) (isAdmin : Bool)
    (st : Store) : UnlinkResult × Store :=
  match read_player_link playername st with
  | none => (.notFound, st)
  | some info =>
    if info.id != some requester && !isAdmin then (.forbidden, st)
    else (.ok, (delete_player_link playername st).2)

/-! ## Session router (`api/showdown.py`, match flow) -/

/-- `_lookup_discord_id`: absent or empty value resolves to nothing, a
value starting with a brace is parsed as a blob and its `id` field is
returned, any other nonempty string is a legacy bare id. -/
def lookup_discord_id (player_name : String) (st : Store) : Option String :=
  match st (.playerlink (str_lower (str_trim player_name))) with
  | none => none
  | some (.vstr s) => if s = "" then none else some s
  | some (.vblob i _ _) => some i
  | some (.vmeta _ _ _) => none

/-- `_pair_key` without its `threadpair:` prefix (the prefix is the
`Key.threadpair` constructor): lower-cased trimmed names, sorted,
joined with a bar. -/
def pair_tag (p1 p2 : String) : String :=
  let a := str_lower (str_trim p1)
  let b := str_lower (str_trim p2)
  if str_lt b a then b ++ "|" ++ a else a ++ "|" ++ b

def THREAD_AUTO_ARCHIVE_MIN : Nat := 60

/-- The auto-archive durations tried by `_create_private_thread` and
`_ensure_unarchived`, in source order. -/
def durations : List Nat := [THREAD_AUTO_ARCHIVE_MIN, 1440, 4320, 10080]

/-- The retry loop shared by `_create_private_thread` and
`_ensure_unarchived`: try each duration in list order until the gateway
accepts one; returns the accepted duration (if any) and the list of
durations actually attempted. -/
def negotiate_go (ok : Nat → Bool) : List Nat → Option Nat × List Nat
  | [] => (none, [])
  | d :: ds =>
    if ok d then (some d, [d])
    else
      let r := negotiate_go ok ds
      (r.1, d :: r.2)

/-- `_ensure_unarchived`: negotiate a duration over `durations`; the
patch succeeds iff some duration is accepted. -/
def ensure_unarchived (ok : Nat → Bool) : Option Nat × List Nat :=
  negotiate_go ok durations

/-- Raw string that `_u_get` would return for a stored value, restricted
to the plain-string values actually stored under `threadpair:` keys. -/
def getStr : Option SVal → Option String
  | some (.vstr s) => some s
  | _ => none

/-- One Discord-gateway call made by the match flow. -/
inductive Call where
  | create (name : String) (dur : Nat)
  | patch (tid : String) (dur : Nat)
  | addMember (tid uid : String)
  | post (cid content : String)
  deriving DecidableEq, Repr

inductive RouteResult where
  | badRequest
  | skipped
  | postedExisting (tid : String)
  | postedNew (tid : String)
  | configMissing
  | failedCreate
  deriving DecidableEq, Repr

/-- World state threaded through the match flow: the store, the set of
live thread ids on the gateway (a patch is accepted iff the thread is
live), a fresh-id counter for created threads, whether the gateway
accepts thread creation, and whether the parent channel is
configured. -/
structure RouteWorld where
  store : Store
  threads : List String
  nextId : Nat
  createOk : Bool
  channelCfg : Bool

/-- The message content built by the match flow (mentions for resolved
players, raw names otherwise). -/
def match_content (p1 p2 : String) (id1 id2 : Option String) : String :=
  let m1 := if strTruthy id1 then "<@" ++ id1.getD "" ++ ">" else p1
  let m2 := if strTruthy id2 then "<@" ++ id2.getD "" ++ ">" else p2
  "New game started! " ++ m1 ++ " vs " ++ m2

/-- The member-add calls made for the resolved players. -/
def member_calls (tid : String) (id1 id2 : Option String) : List Call :=
  (if strTruthy id1 then [Call.addMember tid (id1.getD "")] else []) ++
  (if strTruthy id2 then [Call.addMember tid (id2.getD "")] else [])

/-- The match flow of `handler.do_POST` in `api/showdown.py`
(`routeMatchEvent`): resolve both players, skip when neither resolves,
reuse the stored thread when it can be unarchived, otherwise create a
new private thread, persist the pair pointer, add members and post.
Returns the outcome, the new world, and the trace of gateway calls. -/
def route_match_event (rawP1 rawP2 : String) (w : RouteWorld) :
    RouteResult × RouteWorld × List Call :=
  let p1 := str_trim rawP1
  let p2 := str_trim rawP2
  if p1 = "" || p2 = "" then (.badRequest, w, [])
  else
    let id1 := lookup_discord_id p1 w.store
    let id2 := lookup_discord_id p2 w.store
    if !(strTruthy id1 || strTruthy id2) then (.skipped, w, [])
    else
      let content := match_content p1 p2 id1 id2
      let tname := p1 ++ " vs " ++ p2
      let pk := Key.threadpair (pair_tag p1 p2)
      let tid0 := (getStr (w.store pk)).getD ""
      let unarch := ensure_unarchived (fun _ => w.threads.contains tid0)
      if tid0 != "" && unarch.1.isSome then
        (.postedExisting tid0, w,
          unarch.2.map (fun d => Call.patch tid0 d) ++
            member_calls tid0 id1 id2 ++ [Call.post tid0 content])
      else
        let pre := if tid0 != "" then
            unarch.2.map (fun d => Call.patch tid0 d)
          else []
        if !w.channelCfg then (.configMissing, w, pre)
        else if w.createOk then
          let tid := "t" ++ nat_to_str w.nextId
          let w1 : RouteWorld :=
            { w with store := setStore pk (.vstr tid) w.store,
                     threads := tid :: w.threads,
                     nextId := w.nextId + 1 }
          (.postedNew tid, w1,
            pre ++ [Call.create tname THREAD_AUTO_ARCHIVE_MIN] ++
              member_calls tid id1 id2 ++ [Call.post tid content])
        else
          (.failedCreate, w,
            pre ++ durations.map (fun d => Call.create tname d))

/-- Whether a gateway call is a thread-create call. -/
def isCreate : Call → Bool
  | .create _ _ => true
  | _ => false

/-- Number of thread-create calls in a trace. -/
def countCreates (t : List Call) : Nat :=
  t.countP isCreate

/-! ## Announcement coordinator (`api/showdown.py`, LFG flow) -/

/-- A channel message (snowflake id modelled as a `Nat`, plus its
content). -/
structure Msg where
  id : Nat
  content : String
  deriving DecidableEq, Repr

/-- World state for the LFG flow: the channel messages (most recent
first), the stored `lfgmsg:` pointer for the channel (message ids are
nonempty snowflake strings, so the pointer is simply optional), the
fresh id the gateway would assign to the next posted message, and
whether posting succeeds. -/
structure LfgWorld where
  msgs : List Msg
  ptr : Option Nat
  nextId : Nat
  postOk : Bool
  deriving DecidableEq, Repr

/-- `_list_messages`: up to 100 messages of the channel, restricted to
ids strictly before the cursor when one is given. -/
def list_messages (msgs : List Msg) (before : Option Nat) : List Msg :=
  (match before with
   | none => msgs
   | some b => msgs.filter (fun m => m.id < b)).take 100

/-- `_delete_message`: remove the message with the given id; an absent
id (404) is treated as success, so the result is always a success in
the state model. -/
def delete_message (msgs : List Msg) (mid : Nat) : List Msg :=
  msgs.eraseP (fun m => m.id == mid)

inductive EnsureStatus where
  | existsMsg (mid : Nat)
  | created (mid : Nat)
  | failed
  deriving DecidableEq, Repr

/-- One Discord-gateway call made by the LFG flow. -/
inductive LfgCall where
  | post
  | del (mid : Nat)
  | listPage
  deriving DecidableEq, Repr

/-- `_ensure_lfg_message`: when the pointer is present, report it
without touching the gateway; otherwise post the banner, store the new
id on success, or report failure. -/
def ensure_lfg_message (banner : String) (w : LfgWorld) :
    EnsureStatus × LfgWorld × List LfgCall :=
  match w.ptr with
  | some mid => (.existsMsg mid, w, [])
  | none =>
    if w.postOk then
      let mid := w.nextId
      (.created mid,
       { w with msgs := ⟨mid, banner⟩ :: w.msgs, ptr := some mid,
                nextId := w.nextId + 1 },
       [.post])
    else (.failed, w, [.post])

/-- Inner loop of the reconciliation scan in `_clear_lfg_message`: for
each listed message whose content equals the banner, delete it and
count the deletion (the delete helper reports success even for an
already-absent message). -/
def process_page (banner : String) :
    List Msg → List Msg → Nat → List Msg × Nat
  | [], ch, total => (ch, total)
  | m :: rest, ch, total =>
    if m.content == banner then
      process_page banner rest (delete_message ch m.id) (total + 1)
    else process_page banner rest ch total

def MAX_PAGES : Nat := 5

/-- The paging loop of `_clear_lfg_message`: list a page, stop on an
empty page, delete the matching messages, then continue before the last
listed id.  Returns the channel, the deletion count, and the number of
list calls made.  (`before = msgs[-1]["id"]` is never falsy for a
nonempty page since snowflake id strings are nonempty.) -/
def scan_loop (banner : String) :
    Nat → List Msg → Option Nat → Nat → List Msg × Nat × Nat
  | 0, ch, _, total => (ch, total, 0)
  | fuel + 1, ch, before, total =>
    let page := list_messages ch before
    match page.getLast? with
    | none => (ch, total, 1)
    | some lastm =>
      let pr := process_page banner page ch total
      let r := scan_loop banner fuel pr.1 (some lastm.id) pr.2
      (r.1, r.2.1, r.2.2 + 1)

/-- Step (a) of `_clear_lfg_message`: best-effort delete of the tracked
pointer message. -/
def fast_path (w : LfgWorld) : List Msg :=
  match w.ptr with
  | some tid => delete_message w.msgs tid
  | none => w.msgs

/-- `_clear_lfg_message`: fast-path delete of the tracked message, a
bounded reconciliation scan of at most `MAX_PAGES` pages, then
unconditional deletion of the pointer.  Returns the scan deletion count
and the new world. -/
def clear_lfg_message (banner : String) (w : LfgWorld) : Nat × LfgWorld :=
  let ch0 := fast_path w
  let r := scan_loop banner MAX_PAGES ch0 none 0
  (r.2.1, { w with msgs := r.1, ptr := none })

/-! ## Retention sweeper (`api/cleanup_threads.py`) -/

def DISCORD_EPOCH_MS : Nat := 1420070400000

/-- `_snowflake_ms`: decode the creation instant embedded in a resource
id; a value that does not parse as a number yields 0. -/
def snowflake_ms (snowflake : String) : Nat :=
  match str_to_nat? snowflake with
  | some n => (n >>> 22) + DISCORD_EPOCH_MS
  | none => 0

/-- `_delete_thread` as a function of the gateway status: any 2xx is a
success, and 404 (already gone) as well as 403 are also treated as
success. -/
def delete_thread (status : Nat) : Bool :=
  (200 ≤ status && status < 300) || status == 404 || status == 403

/-- Inputs of one sweep: the active listing, the script of
archived-listing responses (each a list of thread ids plus the
`has_more` flag), the values fetched for the `threadpair:` keys, and
the status the gateway answers when a given id is deleted. -/
structure SweepInput where
  active : List String
  pages : List (List String × Bool)
  ptrs : List (Option String)
  statusOf : String → Nat

structure SweepStats where
  inspected : Nat
  deleted : Nat
  errors : Nat
  deriving DecidableEq, Repr

/-- The archived-thread pagination loop of `_cleanup`: consume listing
responses until a response has no threads or reports no more pages.
Returns the ids processed and the number of listing calls made. -/
def archivedPass : List (List String × Bool) → List String × Nat
  | [] => ([], 1)
  | (ths, more) :: rest =>
    if ths.isEmpty then ([], 1)
    else if more then
      let r := archivedPass rest
      (ths ++ r.1, r.2 + 1)
    else (ths, 1)

/-- Processing of one candidate id inside `_cleanup`: count it as
inspected and, when its derived creation instant is nonzero and older
than the cutoff, issue a delete call (recorded in the trace) whose
outcome updates the `deleted` or `errors` counter. -/
def sweep_step (cutoff : Nat) (statusOf : String → Nat)
    (acc : SweepStats × List String) (tid : String) :
    SweepStats × List String :=
  let s := acc.1
  let s1 : SweepStats := { s with inspected := s.inspected + 1 }
  let ms := snowflake_ms tid
  if ms != 0 && ms < cutoff then
    if delete_thread (statusOf tid) then
      ({ s1 with deleted := s1.deleted + 1 }, acc.2 ++ [tid])
    else
      ({ s1 with errors := s1.errors + 1 }, acc.2 ++ [tid])
  else (s1, acc.2)

/-- The Upstash fallback loop of `_cleanup`: skip absent or empty
values and ids already seen in this loop, process the rest. -/
def fallback_pass (cutoff : Nat) (statusOf : String → Nat) :
    List (Option String) → List String →
    SweepStats × List String → SweepStats × List String
  | [], _, acc => acc
  | v :: rest, seen, acc =>
    let tid := v.getD ""
    if tid == "" || seen.contains tid then
      fallback_pass cutoff statusOf rest seen acc
    else
      fallback_pass cutoff statusOf rest (tid :: seen)
        (sweep_step cutoff statusOf acc tid)

/-- `_cleanup`: process the active listing, then the archived
pagination, then the pair-pointer fallback.  Returns the counters and
the trace of ids for which a delete call was issued. -/
def cleanup (cutoff : Nat) (inp : SweepInput) : SweepStats × List String :=
  let acc0 : SweepStats × List String := (⟨0, 0, 0⟩, [])
  let acc1 := inp.active.foldl (sweep_step cutoff inp.statusOf) acc0
  let acc2 := (archivedPass inp.pages).1.foldl
    (sweep_step cutoff inp.statusOf) acc1
  fallback_pass cutoff inp.statusOf inp.ptrs [] acc2

/-- The `_u_scan` loop: consume scan responses (next cursor plus keys),
stopping when the cursor is 0 or more than 100 tries were made; an
exhausted script models a request error, which also stops the loop.
Returns the keys and the number of tries made. -/
def u_scan_loop : List (Nat × List String) → Nat → List String × Nat
  | [], tries => ([], tries + 1)
  | (cur, ks) :: rest, tries =>
    if cur == 0 || tries + 1 > 100 then (ks, tries + 1)
    else
      let r := u_scan_loop rest (tries + 1)
      (ks ++ r.1, r.2)

/-- The candidate ids a sweep draws from its three sources: the active
listing, the processed archived pages, and the truthy pair-pointer
values. -/
def truthy_ptrs (ptrs : List (Option String)) : List String :=
  ptrs.filterMap (fun v => match v with
    | none => none
    | some s => if s = "" then none else some s)

def sweep_candidates (inp : SweepInput) : List String :=
  inp.active ++ (archivedPass inp.pages).1 ++ truthy_ptrs inp.ptrs

/-- The age test applied by `_cleanup` before deleting. -/
def is_old (cutoff : Nat) (tid : String) : Bool :=
  snowflake_ms tid != 0 && snowflake_ms tid < cutoff

/-- The ids the fallback loop actually processes: truthy pointer values,
first occurrence only, skipping anything already in `seen`. -/
def dedup_aux : List (Option String) → List String → List String
  | [], _ => []
  | v :: rest, seen =>
    let tid := v.getD ""
    if tid == "" || seen.contains tid then dedup_aux rest seen
    else tid :: dedup_aux rest (tid :: seen)

/-! ### Concrete scenario inputs used by witnesses and counterexamples -/

/-- Store holding the link written by `save_link "Ash" "u100" "Ash" "ashk"`. -/
def stAsh : Store := (save_link "Ash" "u100" "Ash" "ashk" emptyStore).2

/-- Store with two legacy player links. -/
def stPair : Store :=
  setStore (.playerlink "misty") (.vstr "u200")
    (setStore (.playerlink "ash") (.vstr "u100") emptyStore)

def wPair : RouteWorld := ⟨stPair, [], 0, true, true⟩

def wEmptyRoute : RouteWorld := ⟨emptyStore, [], 0, true, true⟩

def wLfg0 : LfgWorld := ⟨[], none, 0, true⟩

/-- Channel with one banner and one unrelated message, no pointer. -/
def wC5 : LfgWorld := ⟨[⟨9, "B"⟩, ⟨8, "x"⟩], none, 10, true⟩

/-- Channel whose only message is the tracked banner. -/
def wC5x : LfgWorld := ⟨[⟨5, "B"⟩], some 5, 6, true⟩

/-- Sweep input where an old thread id appears both in the active
listing and as a pair-pointer value. -/
def inpC2 : SweepInput := ⟨["4194304"], [], [some "4194304"], fun _ => 404⟩

/-- Sweep input with one old active thread. -/
def inpC10 : SweepInput := ⟨["4194304"], [], [], fun _ => 200⟩

/-! ## Helper lemmas -/

theorem beq_nat_comm (a b : Nat) : (a == b) = (b == a) := by
  by_cases h : a = b
  · subst h; rfl
  · have h1 : (a == b) = false := by
      simpa using h
    have h2 : (b == a) = false := by
      simpa using (Ne.symm h)
    rw [h1, h2]

theorem sweep_step_trace (c : Nat) (s : String → Nat)
    (acc : SweepStats × List String) (tid : String) :
    (sweep_step c s acc tid).2 =
      if is_old c tid then acc.2 ++ [tid] else acc.2 := by
  unfold sweep_step is_old
  by_cases h : (snowflake_ms tid != 0 && snowflake_ms tid < c) = true
  · simp only [h, if_true]
    by_cases h2 : delete_thread (s tid) = true <;> simp [h2]
  · simp only [Bool.not_eq_true] at h
    simp [h]

theorem foldl_sweep_trace (c : Nat) (s : String → Nat) :
    ∀ (l : List String) (acc : SweepStats × List String),
      (l.foldl (sweep_step c s) acc).2 = acc.2 ++ l.filter (is_old c) := by
  intro l
  induction l with
  | nil => intro acc; simp
  | cons a t ih =>
    intro acc
    rw [List.foldl_cons, ih, sweep_step_trace]
    by_cases h : is_old c a <;> simp [h, List.filter_cons]

theorem fallback_trace (c : Nat) (s : String → Nat) :
    ∀ (ptrs : List (Option String)) (seen : List String)
      (acc : SweepStats × List String),
      (fallback_pass c s ptrs seen acc).2 =
        acc.2 ++ (dedup_aux ptrs seen).filter (is_old c) := by
  intro ptrs
  induction ptrs with
  | nil => intro seen acc; simp [fallback_pass, dedup_aux]
  | cons v rest ih =>
    intro seen acc
    unfold fallback_pass dedup_aux
    by_cases h : (v.getD "" == "" || seen.contains (v.getD "")) = true
    · simp only [h, if_true]
      exact ih seen acc
    · simp only [h, if_false, Bool.false_eq_true]
      rw [ih, sweep_step_trace]
      by_cases h2 : is_old c (v.getD "") <;> simp [h2, List.filter_cons]

theorem mem_dedup_aux :
    ∀ (ptrs : List (Option String)) (seen : List String) (x : String),
      x ∈ dedup_aux ptrs seen ↔ x ∈ truthy_ptrs ptrs ∧ x ∉ seen := by
  intro ptrs
  induction ptrs with
  | nil => intro seen x; simp [dedup_aux, truthy_ptrs]
  | cons v rest ih =>
    intro seen x
    unfold dedup_aux
    match v with
    | none =>
      simp only [Option.getD_none]
      have : (("" : String) == "" || seen.contains "") = true := by simp
      rw [if_pos this]
      simpa [truthy_ptrs] using ih seen x
    | some sv =>
      simp only [Option.getD_some]
      by_cases he : sv = ""
      · subst he
        have hc : (("" : String) == "" || seen.contains "") = true := by simp
        rw [if_pos hc]
        simpa [truthy_ptrs] using ih seen x
      · have htp : truthy_ptrs (some sv :: rest) = sv :: truthy_ptrs rest := by
          simp [truthy_ptrs, he]
        by_cases hs : seen.contains sv = true
        · have hc : ((sv == "") || seen.contains sv) = true := by
            simp only [Bool.or_eq_true]
            exact Or.inr hs
          rw [if_pos hc, htp, ih seen x]
          have hmem : sv ∈ seen := by simpa using hs
          constructor
          · rintro ⟨hx, hnx⟩
            exact ⟨List.mem_cons_of_mem _ hx, hnx⟩
          · rintro ⟨hx, hnx⟩
            rcases List.mem_cons.1 hx with hx | hx
            · exact absurd (hx ▸ hmem) hnx
            · exact ⟨hx, hnx⟩
        · have hnmem : sv ∉ seen := fun h => hs (by simpa using h)
          have hc : ((sv == "") || seen.contains sv) = false := by
            simp only [Bool.or_eq_false_iff]
            constructor
            · simpa using he
            · simpa using hnmem
          have hcp : ¬(((sv == "") || seen.contains sv) = true) := by
            rw [hc]; exact Bool.false_ne_true
          rw [if_neg hcp, htp]
          rw [List.mem_cons, ih (sv :: seen) x]
          by_cases hx : x = sv
          · subst hx
            simp [hnmem]
          · simp [hx, List.mem_cons]

theorem cleanup_trace (c : Nat) (inp : SweepInput) :
    (cleanup c inp).2 =
      inp.active.filter (is_old c) ++
        (archivedPass inp.pages).1.filter (is_old c) ++
        (dedup_aux inp.ptrs []).filter (is_old c) := by
  unfold cleanup
  rw [fallback_trace, foldl_sweep_trace, foldl_sweep_trace]
  simp [List.append_assoc]

theorem cleanup_mem (c : Nat) (inp : SweepInput) (x : String) :
    x ∈ (cleanup c inp).2 ↔
      x ∈ sweep_candidates inp ∧ is_old c x = true := by
  rw [cleanup_trace]
  simp only [List.mem_append, List.mem_filter, sweep_candidates]
  constructor
  · rintro ((⟨h, ho⟩ | ⟨h, ho⟩) | ⟨h, ho⟩)
    · exact ⟨Or.inl (Or.inl h), ho⟩
    · exact ⟨Or.inl (Or.inr h), ho⟩
    · exact ⟨Or.inr ((mem_dedup_aux inp.ptrs [] x).1 h).1, ho⟩
  · rintro ⟨(h | h) | h, ho⟩
    · exact Or.inl (Or.inl ⟨h, ho⟩)
    · exact Or.inl (Or.inr ⟨h, ho⟩)
    · exact Or.inr ⟨(mem_dedup_aux inp.ptrs [] x).2 ⟨h, by simp⟩, ho⟩

theorem is_old_iff (c : Nat) (x : String) :
    is_old c x = true ↔ snowflake_ms x ≠ 0 ∧ snowflake_ms x < c := by
  simp [is_old]

theorem archivedPass_replicate (n : Nat) :
    (archivedPass (List.replicate n (["x"], true))).2 = n + 1 := by
  induction n with
  | zero => rfl
  | succ k ih =>
    rw [List.replicate_succ]
    unfold archivedPass
    simp [ih]

theorem u_scan_loop_le :
    ∀ (script : List (Nat × List String)) (t : Nat),
      (u_scan_loop script t).2 ≤ max (t + 1) 101 := by
  intro script
  induction script with
  | nil => intro t; exact le_max_left _ _
  | cons p rest ih =>
    intro t
    obtain ⟨cur, ks⟩ := p
    unfold u_scan_loop
    by_cases h : (cur == 0 || decide (t + 1 > 100)) = true
    · simp only [h, if_true]
      exact le_max_left _ _
    · simp only [h, if_false, Bool.false_eq_true]
      have hle : t + 1 ≤ 100 := by
        simp only [Bool.or_eq_true, decide_eq_true_eq, not_or] at h
        omega
      have h2 := ih (t + 1)
      have h3 : max (t + 1 + 1) 101 = 101 := Nat.max_eq_right (by omega)
      calc (u_scan_loop rest (t + 1)).2 ≤ max (t + 1 + 1) 101 := h2
        _ = 101 := h3
        _ ≤ max (t + 1) 101 := le_max_right _ _

/-! ## Claim theorems -/

/-- C2 (amended): for every cutoff, the set of resource ids for which the
sweep issues a delete call is exactly the set of candidate ids drawn
from the three enumeration sources whose derived creation instant is
nonzero and older than the cutoff, and every other id receives no
delete call; a delete answered 404 (already absent) counts as a
success.  De-duplication by resource id happens only inside the
pair-pointer fallback source, not across sources. -/
theorem c2_sweep_deletes_exactly (cutoff : Nat) (inp : SweepInput)
    (id : String) :
    (id ∈ (cleanup cutoff inp).2 ↔
      id ∈ sweep_candidates inp ∧
        snowflake_ms id ≠ 0 ∧ snowflake_ms id < cutoff) ∧
    delete_thread 404 = true := by
  constructor
  · rw [cleanup_mem, is_old_iff]
  · rfl

/-- C2 counterexample: an old thread id listed as active and also
reachable through a pair pointer receives two delete calls and is
counted as deleted twice, although only one distinct old candidate
exists — so enumeration is not de-duplicated across the three
sources. -/
theorem c2_counterexample :
    (cleanup 1420070400002 inpC2).2 = ["4194304", "4194304"] ∧
    ¬ (cleanup 1420070400002 inpC2).2.Nodup ∧
    (cleanup 1420070400002 inpC2).1.deleted = 2 ∧
    (sweep_candidates inpC2).dedup = ["4194304"] := by
  refine ⟨by decide, by decide, by decide, by decide⟩

/-- C10: during a sweep, a delete call is issued for an id only when its
snowflake decoding is nonzero (so a non-numeric id is never deleted) and
strictly older than the cutoff. -/
theorem c10_no_delete_on_unparsed (cutoff : Nat) (inp : SweepInput)
    (id : String) (h : id ∈ (cleanup cutoff inp).2) :
    snowflake_ms id ≠ 0 ∧ snowflake_ms id < cutoff := by
  have := (cleanup_mem cutoff inp id).1 h
  exact ((is_old_iff cutoff id).1 this.2)

theorem c10_witness :
    "4194304" ∈ (cleanup 1420070400002 inpC10).2 ∧
    snowflake_ms "4194304" ≠ 0 := by
  refine ⟨by decide, ?_⟩
  exact (c10_no_delete_on_unparsed 1420070400002 inpC10 "4194304" (by decide)).1

/-- C4 counterexample: the archived-thread pagination loop of the sweep
admits no fixed maximum iteration count — for every candidate bound
there is a response sequence (every page nonempty with the has-more
flag set) that drives the loop past the bound. -/
theorem c4_counterexample :
    ¬ ∃ N : Nat, ∀ pages : List (List String × Bool),
      (archivedPass pages).2 ≤ N := by
  rintro ⟨N, h⟩
  have h1 := h (List.replicate (N + 1) (["x"], true))
  rw [archivedPass_replicate] at h1
  omega

/-- C4 (amended): the archived pagination loop terminates only on an
upstream stop signal — it makes exactly one listing call per leading
response that is nonempty and has more pages, plus a final call — while
the store scan loop is the one bounded by a fixed maximum (at most 101
tries). -/
theorem c4_pagination_bounds :
    (∀ pages : List (List String × Bool),
       (archivedPass pages).2 =
         (pages.takeWhile (fun p => !p.1.isEmpty && p.2)).length + 1) ∧
    (∀ script : List (Nat × List String), (u_scan_loop script 0).2 ≤ 101) := by
  constructor
  · intro pages
    induction pages with
    | nil => rfl
    | cons p rest ih =>
      obtain ⟨ths, more⟩ := p
      unfold archivedPass
      by_cases h1 : ths.isEmpty = true
      · simp [h1, List.takeWhile_cons]
      · by_cases h2 : more = true
        · simp [h1, h2, List.takeWhile_cons, ih]
        · simp [h1, h2, List.takeWhile_cons]
  · intro script
    have := u_scan_loop_le script 0
    simpa using this

/-- C8 counterexample: when the gateway accepts only the duration 1440,
the negotiation of `_ensure_unarchived` tries 60 first and then 1440 —
the attempted list is increasing, not descending. -/
theorem c8_counterexample :
    (ensure_unarchived (fun d => d == 1440)).2 = [60, 1440] ∧
    ¬ List.Chain' (fun a b => b ≤ a)
        (ensure_unarchived (fun d => d == 1440)).2 := by
  have h : (ensure_unarchived (fun d => d == 1440)).2 = [60, 1440] := by decide
  refine ⟨h, ?_⟩
  rw [h]
  simp [List.chain'_cons]

theorem negotiate_go_spec (ok : Nat → Bool) :
    ∀ l : List Nat,
      negotiate_go ok l =
        (l.find? ok,
         l.takeWhile (fun d => !ok d) ++ (l.dropWhile (fun d => !ok d)).take 1) := by
  intro l
  induction l with
  | nil => rfl
  | cons d ds ih =>
    unfold negotiate_go
    by_cases h : ok d = true
    · simp [h, List.find?_cons, List.takeWhile_cons, List.dropWhile_cons]
    · simp only [Bool.not_eq_true] at h
      simp [h, ih, List.find?_cons, List.takeWhile_cons, List.dropWhile_cons]

/-- C8 (amended): the reactivation step tries the fixed allowed
durations `[60, 1440, 4320, 10080]` in their listed, strictly
increasing order — the configured value first, then the larger
fallbacks — stopping at the first one the gateway accepts; the accepted
duration is the first acceptable element of that list. -/
theorem c8_negotiation_order (ok : Nat → Bool) :
    (ensure_unarchived ok).1 = durations.find? ok ∧
    (ensure_unarchived ok).2 =
      durations.takeWhile (fun d => !ok d) ++
        (durations.dropWhile (fun d => !ok d)).take 1 ∧
    List.Chain' (fun a b => a < b) durations := by
  refine ⟨?_, ?_, ?_⟩
  · rw [ensure_unarchived, negotiate_go_spec]
  · rw [ensure_unarchived, negotiate_go_spec]
  · simp [durations, THREAD_AUTO_ARCHIVE_MIN, List.chain'_cons]

/-- C9: a match event in which neither (nonempty) player name resolves
through the identity store to a truthy user id is answered `skipped`,
with the world unchanged and an empty trace of resource-gateway
calls. -/
theorem c9_skip_unlinked (w : RouteWorld) (p1 p2 : String)
    (h1 : str_trim p1 ≠ "") (h2 : str_trim p2 ≠ "")
    (h3 : strTruthy (lookup_discord_id (str_trim p1) w.store) = false)
    (h4 : strTruthy (lookup_discord_id (str_trim p2) w.store) = false) :
    route_match_event p1 p2 w = (.skipped, w, []) := by
  unfold route_match_event
  simp [h1, h2, h3, h4]

theorem c9_witness :
    str_trim "Unknown1" ≠ "" ∧
    route_match_event "Unknown1" "Unknown2" wEmptyRoute =
      (.skipped, wEmptyRoute, []) := by
  refine ⟨by decide, ?_⟩
  exact c9_skip_unlinked wEmptyRoute "Unknown1" "Unknown2"
    (by decide) (by decide) (by rfl) (by rfl)

/-- C6: `ensure` reports the stored pointer without any gateway call
when it is present; when absent it posts the banner, stores the new
message id and reports `created` on success (after which a second call
reports the same id via `existsMsg` with no gateway call and no new
message), and reports `failed` when the post fails. -/
theorem c6_ensure_behavior (w : LfgWorld) (banner : String) :
    (∀ mid, w.ptr = some mid →
      ensure_lfg_message banner w = (.existsMsg mid, w, [])) ∧
    (w.ptr = none → w.postOk = true →
      (ensure_lfg_message banner w).1 = .created w.nextId ∧
      (ensure_lfg_message banner w).2.1.ptr = some w.nextId ∧
      (ensure_lfg_message banner w).2.1.msgs = ⟨w.nextId, banner⟩ :: w.msgs ∧
      (ensure_lfg_message banner w).2.2 = [.post] ∧
      ensure_lfg_message banner (ensure_lfg_message banner w).2.1 =
        (.existsMsg w.nextId, (ensure_lfg_message banner w).2.1, [])) ∧
    (w.ptr = none → w.postOk = false →
      ensure_lfg_message banner w = (.failed, w, [.post])) := by
  refine ⟨?_, ?_, ?_⟩
  · intro mid hm
    unfold ensure_lfg_message
    rw [hm]
  · intro hp hk
    unfold ensure_lfg_message
    rw [hp]
    simp [hk]
  · intro hp hk
    unfold ensure_lfg_message
    rw [hp]
    simp [hk]

theorem c6_witness :
    (ensure_lfg_message "B" wLfg0).1 = .created 0 ∧
    ensure_lfg_message "B" (ensure_lfg_message "B" wLfg0).2.1 =
      (.existsMsg 0, (ensure_lfg_message "B" wLfg0).2.1, []) := by
  have h := (c6_ensure_behavior wLfg0 "B").2.1 rfl rfl
  exact ⟨h.1, h.2.2.2.2⟩

/-- C3 counterexample: after linking Ash to u100, re-linking the very
same pair — the stored owner of u100 is Ash itself, not a different
player — still fails with `alreadyLinkedUser`, although the claim
predicts success (and four writes) whenever the existing links are not
to a *different* player or user. -/
theorem c3_counterexample :
    stAsh (.userlink "u100") = some (.vstr "Ash") ∧
    stAsh (.playerlink "ash") = some (.vblob "u100" "ashk" "Ash") ∧
    (save_link "Ash" "u100" "Ash" "ashk" stAsh).1 = .alreadyLinkedUser := by
  refine ⟨by decide, by decide, by decide⟩

/-- C3 (amended): `save_link` fails with `alreadyLinkedUser` whenever
the user already has any linked player (even the same one), fails with
`alreadyLinkedPlayer` whenever the playername already has any link
(even to the same user), performs no mutation on either conflict, and
otherwise writes the four store keys (the username key only when the
trimmed lower-cased username is nonempty). -/
theorem c3_link_conflicts (st : Store) (player uid disp uname : String) :
    (svTruthy (st (.userlink uid)) = true →
      save_link player uid disp uname st = (.alreadyLinkedUser, st)) ∧
    (svTruthy (st (.userlink uid)) = false →
      svTruthy (st (.playerlink (str_lower (str_trim player)))) = true →
      save_link player uid disp uname st = (.alreadyLinkedPlayer, st)) ∧
    (svTruthy (st (.userlink uid)) = false →
      svTruthy (st (.playerlink (str_lower (str_trim player)))) = false →
      (save_link player uid disp uname st).1 = .ok ∧
      (save_link player uid disp uname st).2
          (.playerlink (str_lower (str_trim player))) =
        some (.vblob uid uname disp) ∧
      (save_link player uid disp uname st).2 (.userlink uid) =
        some (.vstr (str_trim player)) ∧
      (str_lower (str_trim uname) ≠ "" →
        (save_link player uid disp uname st).2
            (.usernamelink (str_lower (str_trim uname))) =
          some (.vstr (str_trim player))) ∧
      (save_link player uid disp uname st).2 (.usermeta uid) =
        some (.vmeta uname disp (str_trim player))) := by
  refine ⟨?_, ?_, ?_⟩
  · intro h
    unfold save_link
    simp [h]
  · intro h1 h2
    unfold save_link
    simp [h1, h2]
  · intro h1 h2
    by_cases hu : (str_lower (str_trim uname) != "") = true
    · unfold save_link
      simp [h1, h2, setStore, hu]
    · have hu2 : str_lower (str_trim uname) = "" := by simpa using hu
      unfold save_link
      simp [h1, h2, setStore, hu, hu2]

theorem c3_witness :
    svTruthy (emptyStore (.userlink "u100")) = false ∧
    (save_link "Ash" "u100" "Ash" "ashk" emptyStore).1 = .ok ∧
    (save_link "Ash" "u100" "Ash" "ashk" emptyStore).2 (.userlink "u100") =
      some (.vstr "Ash") := by
  have h := (c3_link_conflicts emptyStore "Ash" "u100" "Ash" "ashk").2.2
    rfl rfl
  exact ⟨rfl, h.1, h.2.2.1⟩

/-- C7: `unlink` fails with `notFound` when no mapping exists for the
player; fails with `forbidden` when the requester is not the linked
user id and is not an admin (leaving the store untouched); and on
success deletes all four associated store keys, after which looking the
player up returns nothing. -/
theorem c7_unlink_behavior (st : Store) (p requester : String)
    (isAdmin : Bool) :
    (read_player_link p st = none →
      unlink_cmd p requester isAdmin st = (.notFound, st)) ∧
    (∀ info, read_player_link p st = some info →
      info.id ≠ some requester → isAdmin = false →
      unlink_cmd p requester isAdmin st = (.forbidden, st)) ∧
    (∀ uid un dn,
      st (.playerlink (str_lower (str_trim p))) = some (.vblob uid un dn) →
      uid ≠ "" → (uid = requester ∨ isAdmin = true) →
      (unlink_cmd p requester isAdmin st).1 = .ok ∧
      (unlink_cmd p requester isAdmin st).2
          (.playerlink (str_lower (str_trim p))) = none ∧
      (unlink_cmd p requester isAdmin st).2 (.userlink uid) = none ∧
      (unlink_cmd p requester isAdmin st).2 (.usermeta uid) = none ∧
      (str_lower (str_trim un) ≠ "" →
        (unlink_cmd p requester isAdmin st).2
            (.usernamelink (str_lower (str_trim un))) = none) ∧
      read_player_link p (unlink_cmd p requester isAdmin st).2 = none) := by
  refine ⟨?_, ?_, ?_⟩
  · intro h
    unfold unlink_cmd
    rw [h]
  · intro info hinfo hne hadm
    have hcond : (info.id != some requester && !isAdmin) = true := by
      subst hadm
      simp [hne]
    unfold unlink_cmd
    simp [hinfo, hcond]
  · intro uid un dn hst hu hreq
    have hinfo : read_player_link p st = some ⟨some uid, some un, some dn⟩ := by
      unfold read_player_link
      rw [hst]
    have hub : (uid != "") = true := by simpa using hu
    have hcond : ((some uid != some requester) && !isAdmin) = false := by
      rcases hreq with h | h
      · subst h
        simp
      · simp [h]
    have hres : unlink_cmd p requester isAdmin st =
        (.ok, (delete_player_link p st).2) := by
      unfold unlink_cmd
      simp [hinfo, hcond]
    rw [hres]
    by_cases hun : (str_lower (str_trim un) != "") = true
    · refine ⟨rfl, ?_, ?_, ?_, fun _ => ?_, ?_⟩
      · simp [delete_player_link, hinfo, hub, hun, delStore]
      · simp [delete_player_link, hinfo, hub, hun, delStore]
      · simp [delete_player_link, hinfo, hub, hun, delStore]
      · simp [delete_player_link, hinfo, hub, hun, delStore]
      · unfold read_player_link
        simp [delete_player_link, hinfo, hub, hun, delStore]
    · have hun2 : str_lower (str_trim un) = "" := by simpa using hun
      refine ⟨rfl, ?_, ?_, ?_, fun hne => absurd hun2 hne, ?_⟩
      · simp [delete_player_link, hinfo, hub, hun, delStore]
      · simp [delete_player_link, hinfo, hub, hun, delStore]
      · simp [delete_player_link, hinfo, hub, hun, delStore]
      · unfold read_player_link
        simp [delete_player_link, hinfo, hub, hun, delStore]

theorem c7_witness :
    stAsh (.playerlink "ash") = some (.vblob "u100" "ashk" "Ash") ∧
    (unlink_cmd "Ash" "u200" false stAsh).1 = .forbidden ∧
    (unlink_cmd "Ash" "u100" false stAsh).1 = .ok ∧
    read_player_link "Ash" (unlink_cmd "Ash" "u100" false stAsh).2 = none := by
  have hok := (c7_unlink_behavior stAsh "Ash" "u100" false).2.2
    "u100" "ashk" "Ash" (by decide) (by decide) (Or.inl rfl)
  have hforb := (c7_unlink_behavior stAsh "Ash" "u200" false).2.1
    ⟨some "u100", some "ashk", some "Ash"⟩ (by decide) (by decide) rfl
  refine ⟨by decide, ?_, hok.1, hok.2.2.2.2.2⟩
  rw [hforb]

theorem mem_list_messages {m : Msg} {ch : List Msg} {b : Option Nat}
    (h : m ∈ list_messages ch b) : m ∈ ch := by
  unfold list_messages at h
  match b with
  | none => exact List.mem_of_mem_take h
  | some bb =>
    have := List.mem_of_mem_take h
    exact (List.mem_filter.1 this).1

theorem erase_filter_of_nodup :
    ∀ (l : List Msg) (x : Nat), (l.map Msg.id).Nodup →
      l.eraseP (fun m => m.id == x) = l.filter (fun m => !(m.id == x)) := by
  intro l
  induction l with
  | nil => intro x _; rfl
  | cons a t ih =>
    intro x h
    rw [List.map_cons, List.nodup_cons] at h
    by_cases ha : (a.id == x) = true
    · have hax : a.id = x := by simpa using ha
      have hself : t.filter (fun m => !(m.id == x)) = t := by
        rw [List.filter_eq_self]
        intro m hm
        have hne : m.id ≠ a.id := by
          intro he
          exact h.1 (he ▸ List.mem_map_of_mem Msg.id hm)
        have hf : (m.id == x) = false := by
          rw [← hax]
          simpa using hne
        simp [hf]
      simp [List.eraseP_cons, List.filter_cons, ha, hself]
    · have ha2 : (a.id == x) = false := by simpa using ha
      simp [List.eraseP_cons, List.filter_cons, ha2, ih x h.2]

theorem process_page_spec (banner : String) :
    ∀ (L ch : List Msg) (t : Nat), (ch.map Msg.id).Nodup →
      process_page banner L ch t =
        (ch.filter (fun c =>
           !(L.any (fun m => (m.content == banner) && (m.id == c.id)))),
         t + L.countP (fun m => m.content == banner)) := by
  intro L
  induction L with
  | nil =>
    intro ch t _
    simp [process_page]
  | cons m rest ih =>
    intro ch t hnd
    unfold process_page
    by_cases hm : (m.content == banner) = true
    · rw [if_pos hm]
      have hdel : delete_message ch m.id =
          ch.filter (fun c => !(c.id == m.id)) :=
        erase_filter_of_nodup ch m.id hnd
      have hnd2 : ((delete_message ch m.id).map Msg.id).Nodup := by
        unfold delete_message
        exact ((List.eraseP_sublist ch).map Msg.id).nodup hnd
      rw [ih (delete_message ch m.id) (t + 1) hnd2, hdel,
        List.filter_filter]
      rw [Prod.mk.injEq]
      refine ⟨?_, ?_⟩
      · apply List.filter_congr
        intro c _
        rw [beq_nat_comm c.id m.id]
        simp [hm, Bool.not_or, Bool.and_comm]
      · rw [List.countP_cons]
        simp [hm]
        omega
    · rw [if_neg hm]
      rw [ih ch t hnd]
      rw [Prod.mk.injEq]
      refine ⟨?_, ?_⟩
      · apply List.filter_congr
        intro c _
        simp only [Bool.not_eq_true] at hm
        simp [hm]
      · rw [List.countP_cons]
        simp [hm]

theorem process_page_self (banner : String) (ch : List Msg)
    (hnd : (ch.map Msg.id).Nodup) :
    process_page banner ch ch 0 =
      (ch.filter (fun m => !(m.content == banner)),
       ch.countP (fun m => m.content == banner)) := by
  rw [process_page_spec banner ch ch 0 hnd]
  rw [Prod.mk.injEq]
  refine ⟨?_, ?_⟩
  · apply List.filter_congr
    intro c hc
    have : (ch.any (fun m => (m.content == banner) && (m.id == c.id))) =
        (c.content == banner) := by
      by_cases hcb : (c.content == banner) = true
      · rw [hcb]
        rw [List.any_eq_true]
        exact ⟨c, hc, by simp [hcb]⟩
      · simp only [Bool.not_eq_true] at hcb
        rw [hcb]
        rw [List.any_eq_false]
        intro m hmem hf
        have h0 : (m.content == banner) = true ∧ (m.id == c.id) = true := by
          simpa using hf
        have h2 : m.id = c.id := by simpa using h0.2
        have hmc : m = c := List.inj_on_of_nodup_map hnd hmem hc h2
        have h1 := h0.1
        rw [hmc, hcb] at h1
        simp at h1
    rw [this]
  · simp

theorem process_page_no_match (banner : String) :
    ∀ (L ch : List Msg) (t : Nat),
      (∀ m ∈ L, (m.content == banner) = false) →
      process_page banner L ch t = (ch, t) := by
  intro L
  induction L with
  | nil => intro ch t _; rfl
  | cons m rest ih =>
    intro ch t h
    unfold process_page
    rw [if_neg (by simp [h m (List.mem_cons_self m rest)])]
    exact ih ch t (fun x hx => h x (List.mem_cons_of_mem m hx))

theorem scan_loop_no_match (banner : String) :
    ∀ (fuel : Nat) (ch : List Msg) (before : Option Nat) (t : Nat),
      (∀ m ∈ ch, (m.content == banner) = false) →
      (scan_loop banner fuel ch before t).1 = ch ∧
      (scan_loop banner fuel ch before t).2.1 = t := by
  intro fuel
  induction fuel with
  | zero => intro ch before t _; exact ⟨rfl, rfl⟩
  | succ k ih =>
    intro ch before t h
    have hpp : process_page banner (list_messages ch before) ch t = (ch, t) :=
      process_page_no_match banner _ ch t
        (fun m hm => h m (mem_list_messages hm))
    unfold scan_loop
    rcases hl : (list_messages ch before).getLast? with _ | lastm
    · simp [hl]
    · simp only [hl, hpp]
      have hr := ih ch (some lastm.id) t h
      exact ⟨hr.1, hr.2⟩

theorem scan_loop_pages_le (banner : String) :
    ∀ (fuel : Nat) (ch : List Msg) (before : Option Nat) (t : Nat),
      (scan_loop banner fuel ch before t).2.2 ≤ fuel := by
  intro fuel
  induction fuel with
  | zero => intro ch before t; exact Nat.le_refl 0
  | succ k ih =>
    intro ch before t
    unfold scan_loop
    rcases hl : (list_messages ch before).getLast? with _ | lastm
    · simp only [hl]
      omega
    · simp only [hl]
      have := ih (process_page banner (list_messages ch before) ch t).1
        (some lastm.id) (process_page banner (list_messages ch before) ch t).2
      omega

theorem scan_loop_single_page (banner : String) (fuel : Nat) (ch : List Msg)
    (hnd : (ch.map Msg.id).Nodup) (hlen : ch.length ≤ 100) :
    (scan_loop banner (fuel + 1) ch none 0).1 =
      ch.filter (fun m => !(m.content == banner)) ∧
    (scan_loop banner (fuel + 1) ch none 0).2.1 =
      ch.countP (fun m => m.content == banner) := by
  unfold scan_loop
  have hpage : list_messages ch none = ch := by
    unfold list_messages
    exact List.take_of_length_le hlen
  rw [hpage]
  rcases hl : ch.getLast? with _ | lastm
  · have hnil : ch = [] := List.getLast?_eq_none_iff.1 hl
    subst hnil
    exact ⟨rfl, rfl⟩
  · simp only [hl, process_page_self banner ch hnd]
    have hnm : ∀ m ∈ ch.filter (fun m => !(m.content == banner)),
        (m.content == banner) = false := by
      intro m hm
      have := (List.mem_filter.1 hm).2
      simpa using this
    have hrest := scan_loop_no_match banner fuel
      (ch.filter (fun m => !(m.content == banner))) (some lastm.id)
      (ch.countP (fun m => m.content == banner)) hnm
    exact ⟨hrest.1, hrest.2⟩

theorem getLast?_mem {α : Type} (l : List α) (a : α)
    (h : l.getLast? = some a) : a ∈ l := by
  rcases List.mem_getLast?_eq_getLast (l := l) (x := a) (by rw [h]; rfl)
    with ⟨hne, rfl⟩
  exact List.getLast_mem hne

theorem pairwise_desc_nodup (l : List Msg)
    (h : l.Pairwise (fun a b => b.id < a.id)) : (l.map Msg.id).Nodup :=
  List.pairwise_map.mpr (h.imp fun hab => (Nat.ne_of_lt hab).symm)

theorem getLast_min_of_sorted :
    ∀ (l : List Msg) (x : Msg),
      l.Pairwise (fun a b => b.id < a.id) → l.getLast? = some x →
      ∀ m ∈ l, x.id ≤ m.id := by
  intro l
  induction l with
  | nil =>
    intro x _ h
    simp at h
  | cons a t ih =>
    intro x hp hl m hm
    rw [List.pairwise_cons] at hp
    cases t with
    | nil =>
      rw [List.getLast?_singleton] at hl
      have hax : a = x := by simpa using hl
      have hma : m = a := by simpa using hm
      rw [hma, ← hax]
    | cons b t2 =>
      rw [List.getLast?_cons_cons] at hl
      rcases List.mem_cons.1 hm with rfl | hm2
      · have hx : x ∈ b :: t2 := getLast?_mem _ _ hl
        exact Nat.le_of_lt (hp.1 x hx)
      · exact ih x hp.2 hl m hm2

theorem list_messages_split (done rest : List Msg) (b : Nat)
    (hdone : ∀ m ∈ done, b ≤ m.id) (hrest : ∀ m ∈ rest, m.id < b) :
    list_messages (done ++ rest) (some b) = rest.take 100 := by
  have h1 : done.filter (fun m => decide (m.id < b)) = [] := by
    rw [List.filter_eq_nil_iff]
    intro m hm
    simpa using hdone m hm
  have h2 : rest.filter (fun m => decide (m.id < b)) = rest := by
    rw [List.filter_eq_self]
    intro m hm
    simpa using hrest m hm
  show (((done ++ rest).filter (fun m => decide (m.id < b))).take 100) =
    rest.take 100
  rw [List.filter_append, h1, h2, List.nil_append]

theorem filter_page_erase (banner : String) (A P B : List Msg)
    (hnd : ((A ++ (P ++ B)).map Msg.id).Nodup) :
    (A ++ (P ++ B)).filter
        (fun c => !(P.any (fun m => (m.content == banner) && (m.id == c.id)))) =
      A ++ (P.filter (fun c => !(c.content == banner)) ++ B) := by
  have hinj := List.inj_on_of_nodup_map hnd
  have hndl : (A ++ (P ++ B)).Nodup := List.Nodup.of_map Msg.id hnd
  have hdisA : A.Disjoint (P ++ B) := (List.nodup_append.1 hndl).2.2
  have hndPB : (P ++ B).Nodup := (List.nodup_append.1 hndl).2.1
  have hdisP : P.Disjoint B := (List.nodup_append.1 hndPB).2.2
  rw [List.filter_append, List.filter_append]
  have hA : A.filter
      (fun c => !(P.any (fun m => (m.content == banner) && (m.id == c.id)))) = A := by
    rw [List.filter_eq_self]
    intro c hc
    have hany : (P.any (fun m => (m.content == banner) && (m.id == c.id))) = false := by
      rw [List.any_eq_false]
      intro m hm hcon
      have h0 : (m.content == banner) = true ∧ (m.id == c.id) = true := by
        simpa using hcon
      have hid : m.id = c.id := by simpa using h0.2
      have hmc : m = c := hinj
        (List.mem_append_right A (List.mem_append_left B hm))
        (List.mem_append_left (P ++ B) hc) hid
      subst hmc
      exact hdisA hc (List.mem_append_left B hm)
    simp [hany]
  have hB : B.filter
      (fun c => !(P.any (fun m => (m.content == banner) && (m.id == c.id)))) = B := by
    rw [List.filter_eq_self]
    intro c hc
    have hany : (P.any (fun m => (m.content == banner) && (m.id == c.id))) = false := by
      rw [List.any_eq_false]
      intro m hm hcon
      have h0 : (m.content == banner) = true ∧ (m.id == c.id) = true := by
        simpa using hcon
      have hid : m.id = c.id := by simpa using h0.2
      have hmc : m = c := hinj
        (List.mem_append_right A (List.mem_append_left B hm))
        (List.mem_append_right A (List.mem_append_right P hc)) hid
      subst hmc
      exact hdisP hm hc
    simp [hany]
  have hP : P.filter
      (fun c => !(P.any (fun m => (m.content == banner) && (m.id == c.id)))) =
      P.filter (fun c => !(c.content == banner)) := by
    apply List.filter_congr
    intro c hc
    have hend : (P.any (fun m => (m.content == banner) && (m.id == c.id))) =
        (c.content == banner) := by
      by_cases hcb : (c.content == banner) = true
      · rw [hcb, List.any_eq_true]
        exact ⟨c, hc, by simp [hcb]⟩
      · simp only [Bool.not_eq_true] at hcb
        rw [hcb, List.any_eq_false]
        intro m hm hcon
        have h0 : (m.content == banner) = true ∧ (m.id == c.id) = true := by
          simpa using hcon
        have hid : m.id = c.id := by simpa using h0.2
        have hmc : m = c := hinj
          (List.mem_append_right A (List.mem_append_left B hm))
          (List.mem_append_right A (List.mem_append_left B hc)) hid
        have h1 := h0.1
        rw [hmc, hcb] at h1
        simp at h1
    rw [hend]
  rw [hA, hB, hP]

theorem scan_loop_window (banner : String) :
    ∀ (fuel : Nat) (done rest : List Msg) (before : Option Nat) (t : Nat),
      (done ++ rest).Pairwise (fun a b => b.id < a.id) →
      (match before with
       | none => done = []
       | some b => (∀ m ∈ done, b ≤ m.id) ∧ (∀ m ∈ rest, m.id < b)) →
      (scan_loop banner fuel (done ++ rest) before t).2.1 =
        t + (rest.take (fuel * 100)).countP (fun m => m.content == banner) ∧
      (scan_loop banner fuel (done ++ rest) before t).1 =
        done ++ ((rest.take (fuel * 100)).filter
            (fun m => !(m.content == banner)) ++
          rest.drop (fuel * 100)) := by
  intro fuel
  induction fuel with
  | zero =>
    intro done rest before t hp hb
    exact ⟨by simp [scan_loop], by simp [scan_loop]⟩
  | succ k ih =>
    intro done rest before t hp hb
    have hpage : list_messages (done ++ rest) before = rest.take 100 := by
      match before, hb with
      | none, hb =>
        subst hb
        simp [list_messages]
      | some b, hb => exact list_messages_split done rest b hb.1 hb.2
    unfold scan_loop
    rw [hpage]
    by_cases hre : rest = []
    · subst hre
      exact ⟨by simp, by simp⟩
    · have hpn : rest.take 100 ≠ [] := by
        intro hcon
        rcases List.take_eq_nil_iff.1 hcon with h | h
        · exact absurd h (by norm_num)
        · exact hre h
      obtain ⟨lastm, hlast⟩ : ∃ x, (rest.take 100).getLast? = some x := by
        cases hx : (rest.take 100).getLast? with
        | none => exact absurd (List.getLast?_eq_none_iff.1 hx) hpn
        | some x => exact ⟨x, rfl⟩
      have hndall : ((done ++ rest).map Msg.id).Nodup := pairwise_desc_nodup _ hp
      have hnd2 : ((done ++ (rest.take 100 ++ rest.drop 100)).map Msg.id).Nodup := by
        rw [List.take_append_drop]
        exact hndall
      have hsplit : done ++ rest = done ++ (rest.take 100 ++ rest.drop 100) := by
        rw [List.take_append_drop]
      have hfe := filter_page_erase banner done (rest.take 100) (rest.drop 100) hnd2
      have hpp : process_page banner (rest.take 100) (done ++ rest) t =
          (done ++ ((rest.take 100).filter (fun c => !(c.content == banner)) ++
            rest.drop 100),
           t + (rest.take 100).countP (fun m => m.content == banner)) := by
        rw [process_page_spec banner (rest.take 100) (done ++ rest) t hndall,
          Prod.mk.injEq]
        refine ⟨?_, rfl⟩
        rw [hsplit]
        exact hfe
      simp only [hlast, hpp]
      have hrp : rest.Pairwise (fun a b => b.id < a.id) :=
        (List.pairwise_append.1 hp).2.1
      have hrsplitp : (rest.take 100 ++ rest.drop 100).Pairwise
          (fun a b => b.id < a.id) := by
        rw [List.take_append_drop]
        exact hrp
      have htdp := List.pairwise_append.1 hrsplitp
      have hsub : ((done ++ (rest.take 100).filter (fun c => !(c.content == banner))) ++
          rest.drop 100).Sublist (done ++ rest) := by
        have hinner : ((rest.take 100).filter (fun c => !(c.content == banner)) ++
            rest.drop 100).Sublist (rest.take 100 ++ rest.drop 100) :=
          List.Sublist.append (List.filter_sublist _) (List.Sublist.refl _)
        have houter := List.Sublist.append (List.Sublist.refl done) hinner
        rw [List.take_append_drop] at houter
        rw [← List.append_assoc] at houter
        exact houter
      have hp' : ((done ++ (rest.take 100).filter (fun c => !(c.content == banner))) ++
          rest.drop 100).Pairwise (fun a b => b.id < a.id) :=
        List.Pairwise.sublist hsub hp
      have hlmem : lastm ∈ rest.take 100 := getLast?_mem _ _ hlast
      have hlrest : lastm ∈ rest := List.mem_of_mem_take hlmem
      have hcross := (List.pairwise_append.1 hp).2.2
      have hd1 : ∀ m ∈ done ++ (rest.take 100).filter
          (fun c => !(c.content == banner)), lastm.id ≤ m.id := by
        intro m hm
        rcases List.mem_append.1 hm with hmd | hmf
        · exact Nat.le_of_lt (hcross m hmd lastm hlrest)
        · exact getLast_min_of_sorted (rest.take 100) lastm
            (List.Pairwise.sublist (List.take_sublist _ _) hrp) hlast m
            (List.mem_filter.1 hmf).1
      have hd2 : ∀ m ∈ rest.drop 100, m.id < lastm.id := by
        intro m hm
        exact htdp.2.2 lastm hlmem m hm
      have hih := ih
        (done ++ (rest.take 100).filter (fun c => !(c.content == banner)))
        (rest.drop 100) (some lastm.id)
        (t + (rest.take 100).countP (fun m => m.content == banner))
        hp' ⟨hd1, hd2⟩
      have harith : (k + 1) * 100 = 100 + k * 100 := by omega
      rw [← List.append_assoc]
      constructor
      · rw [hih.1, harith, List.take_add, List.countP_append]
        omega
      · rw [hih.2, harith, List.take_add, List.filter_append,
          ← List.drop_drop]
        simp [List.append_assoc]

/-- C5 counterexample: the channel holds exactly one message — the
tracked banner itself.  `clear` deletes it (the channel ends empty) yet
returns a deletion count of 0, because the fast-path deletion of the
tracked message is not counted and the scan then finds nothing. -/
theorem c5_counterexample :
    wC5x.msgs = [⟨5, "B"⟩] ∧
    (clear_lfg_message "B" wC5x).1 = 0 ∧
    (clear_lfg_message "B" wC5x).2.msgs = [] := by
  refine ⟨rfl, by decide, by decide⟩

/-- C5 (amended): `clear` pages backward within a bounded window (at
most `MAX_PAGES = 5` list calls, each returning at most 100 messages),
always deletes the pointer key, and, after the fast-path deletion of
the tracked message, removes from the channel exactly the messages
within that window whose content equals the banner, returning the count
of messages deleted by the reconciliation scan — which excludes the
fast-path tracked deletion.  The window statement covers channels of
any length in listing order (snowflake ids strictly descending, the
order the gateway returns and the cursor pagination relies on): the
scanned window is the first `MAX_PAGES * 100` messages.  A single-page
variant needing only distinct ids is included as well. -/
theorem c5_clear_behavior (w : LfgWorld) (banner : String) :
    (clear_lfg_message banner w).2.ptr = none ∧
    (∀ ch before, (list_messages ch before).length ≤ 100) ∧
    (∀ fuel ch before t,
      (scan_loop banner fuel ch before t).2.2 ≤ fuel) ∧
    MAX_PAGES = 5 ∧
    (((fast_path w).map Msg.id).Nodup → (fast_path w).length ≤ 100 →
      (clear_lfg_message banner w).1 =
        (fast_path w).countP (fun m => m.content == banner) ∧
      (clear_lfg_message banner w).2.msgs =
        (fast_path w).filter (fun m => !(m.content == banner))) ∧
    ((fast_path w).Pairwise (fun a b => b.id < a.id) →
      (clear_lfg_message banner w).1 =
        ((fast_path w).take (MAX_PAGES * 100)).countP
          (fun m => m.content == banner) ∧
      (clear_lfg_message banner w).2.msgs =
        ((fast_path w).take (MAX_PAGES * 100)).filter
            (fun m => !(m.content == banner)) ++
          (fast_path w).drop (MAX_PAGES * 100)) := by
  refine ⟨rfl, ?_, scan_loop_pages_le banner, rfl, ?_, ?_⟩
  · intro ch before
    unfold list_messages
    match before with
    | none => exact List.length_take_le 100 ch
    | some b => exact List.length_take_le 100 _
  · intro hnd hlen
    have h5 : MAX_PAGES = 4 + 1 := rfl
    have hsp := scan_loop_single_page banner 4 (fast_path w) hnd hlen
    unfold clear_lfg_message
    rw [h5]
    exact ⟨hsp.2, hsp.1⟩
  · intro hsort
    have hwin := scan_loop_window banner 5 [] (fast_path w) none 0
      (by simpa using hsort) rfl
    simp only [List.nil_append, Nat.zero_add] at hwin
    have hclr1 : (clear_lfg_message banner w).1 =
        (scan_loop banner 5 (fast_path w) none 0).2.1 := rfl
    have hclr2 : (clear_lfg_message banner w).2.msgs =
        (scan_loop banner 5 (fast_path w) none 0).1 := rfl
    constructor
    · rw [hclr1, hwin.1]
      rfl
    · rw [hclr2, hwin.2]
      rfl

theorem c5_witness :
    ((fast_path wC5).map Msg.id).Nodup ∧
    (fast_path wC5).Pairwise (fun a b => b.id < a.id) ∧
    (clear_lfg_message "B" wC5).1 = 1 ∧
    (clear_lfg_message "B" wC5).2.msgs = [⟨8, "x"⟩] := by
  have h := (c5_clear_behavior wC5 "B").2.2.2.2.1 (by decide) (by decide)
  have h2 := (c5_clear_behavior wC5 "B").2.2.2.2.2 (by decide)
  exact ⟨by decide, by decide, h.1.trans (by decide),
    h2.2.trans (by decide)⟩

theorem tid_ne_empty (n : Nat) : ("t" ++ nat_to_str n) ≠ "" := by
  intro h
  have hd := congrArg String.data h
  rw [String.data_append] at hd
  simp [nat_to_str] at hd

theorem lookup_set_threadpair (p t : String) (v : SVal) (st : Store) :
    lookup_discord_id p (setStore (.threadpair t) v st) =
      lookup_discord_id p st := by
  unfold lookup_discord_id setStore
  simp

theorem countCreates_member_calls (tid : String) (id1 id2 : Option String) :
    countCreates (member_calls tid id1 id2) = 0 := by
  unfold member_calls countCreates
  by_cases a : strTruthy id1 = true <;> by_cases b : strTruthy id2 = true <;>
    simp [a, b, isCreate]

theorem member_calls_no_create (tid : String) (id1 id2 : Option String) :
    ∀ a ∈ member_calls tid id1 id2, isCreate a = false := by
  intro a ha
  unfold member_calls at ha
  rcases List.mem_append.1 ha with h | h
  · by_cases hc1 : strTruthy id1 = true
    · rw [if_pos hc1] at h
      simp at h
      subst h
      rfl
    · rw [if_neg hc1] at h
      simp at h
  · by_cases hc2 : strTruthy id2 = true
    · rw [if_pos hc2] at h
      simp at h
      subst h
      rfl
    · rw [if_neg hc2] at h
      simp at h

/-- C1: two sequential `routeMatchEvent` calls for the same linked pair,
starting with no stored thread pointer and a gateway that accepts
creation, make exactly one create call in total: the first call creates
the thread and persists the pointer, and the second call (whose world
the first call produced, with the created thread still live and so
reactivatable) reuses the same thread, returns the existing outcome,
changes nothing, and makes no create call. -/
theorem c1_route_idempotent_reuse (w : RouteWorld) (p1 p2 : String)
    (h1 : str_trim p1 ≠ "") (h2 : str_trim p2 ≠ "")
    (hl1 : strTruthy (lookup_discord_id (str_trim p1) w.store) = true)
    (hl2 : strTruthy (lookup_discord_id (str_trim p2) w.store) = true)
    (hnp : w.store (.threadpair (pair_tag (str_trim p1) (str_trim p2))) = none)
    (hc : w.createOk = true) (hcfg : w.channelCfg = true) :
    (route_match_event p1 p2 w).1 =
      .postedNew ("t" ++ nat_to_str w.nextId) ∧
    countCreates (route_match_event p1 p2 w).2.2 = 1 ∧
    (route_match_event p1 p2 (route_match_event p1 p2 w).2.1).1 =
      .postedExisting ("t" ++ nat_to_str w.nextId) ∧
    (route_match_event p1 p2 (route_match_event p1 p2 w).2.1).2.1 =
      (route_match_event p1 p2 w).2.1 ∧
    countCreates
      (route_match_event p1 p2 (route_match_event p1 p2 w).2.1).2.2 = 0 := by
  set tid := "t" ++ nat_to_str w.nextId with htid
  set pk := Key.threadpair (pair_tag (str_trim p1) (str_trim p2)) with hpk
  set id1 := lookup_discord_id (str_trim p1) w.store with hid1
  set id2 := lookup_discord_id (str_trim p2) w.store with hid2
  set content := match_content (str_trim p1) (str_trim p2) id1 id2 with hcontent
  set w1 : RouteWorld :=
    { w with store := setStore pk (.vstr tid) w.store,
             threads := tid :: w.threads,
             nextId := w.nextId + 1 } with hw1
  have e1 : route_match_event p1 p2 w =
      (.postedNew tid, w1,
       [Call.create (str_trim p1 ++ " vs " ++ str_trim p2)
          THREAD_AUTO_ARCHIVE_MIN] ++
         member_calls tid id1 id2 ++ [Call.post tid content]) := by
    unfold route_match_event
    simp [h1, h2, hl1, hnp, hc, hcfg, getStr, ← hid1, ← hid2, ← hpk,
      ← htid, ← hcontent, ← hw1]
    rw [hw1, hc, hcfg]
  have hlook1 : lookup_discord_id (str_trim p1) w1.store = id1 := by
    rw [hw1, hid1]
    exact lookup_set_threadpair (str_trim p1) _ _ w.store
  have hlook2 : lookup_discord_id (str_trim p2) w1.store = id2 := by
    rw [hw1, hid2]
    exact lookup_set_threadpair (str_trim p2) _ _ w.store
  have hget : (getStr (w1.store pk)).getD "" = tid := by
    rw [hw1]
    simp [setStore, getStr]
  have htne : (tid != "") = true := by
    simpa using tid_ne_empty w.nextId
  have htne2 : ¬(tid = "") := htid ▸ tid_ne_empty w.nextId
  have hunarch : ensure_unarchived (fun _ => w1.threads.contains tid) =
      (some THREAD_AUTO_ARCHIVE_MIN, [THREAD_AUTO_ARCHIVE_MIN]) := by
    have hcont : w1.threads.contains tid = true := by
      rw [hw1]
      simp
    simp [ensure_unarchived, negotiate_go, durations, hcont]
  have hunarch2 : ensure_unarchived (fun _ : Nat => true) =
      (some THREAD_AUTO_ARCHIVE_MIN, [THREAD_AUTO_ARCHIVE_MIN]) := by
    simp [ensure_unarchived, negotiate_go, durations]
  have e2 : route_match_event p1 p2 w1 =
      (.postedExisting tid, w1,
       [Call.patch tid THREAD_AUTO_ARCHIVE_MIN] ++
         member_calls tid id1 id2 ++ [Call.post tid content]) := by
    unfold route_match_event
    simp [h1, h2, hlook1, hlook2, hl1, hget, htne, htne2, hunarch,
      hunarch2, setStore, getStr, ← hpk, ← hcontent]
  have hproj : (route_match_event p1 p2 w).2.1 = w1 := by
    rw [e1]
  have hcCreate : ∀ nm d, List.countP isCreate [Call.create nm d] = 1 := by
    intro nm d
    simp [isCreate]
  have hcPost : ∀ c s, List.countP isCreate [Call.post c s] = 0 := by
    intro c s
    simp [isCreate]
  have hcPatch : ∀ t d, List.countP isCreate [Call.patch t d] = 0 := by
    intro t d
    simp [isCreate]
  have hcMem : List.countP isCreate (member_calls tid id1 id2) = 0 := by
    have h := countCreates_member_calls tid id1 id2
    unfold countCreates at h
    exact h
  refine ⟨?_, ?_, ?_, ?_, ?_⟩
  · rw [e1]
  · simp only [e1]
    unfold countCreates
    rw [List.countP_append, List.countP_append, hcCreate, hcPost, hcMem]
  · rw [hproj, e2]
  · rw [hproj, e2]
  · rw [hproj]
    simp only [e2]
    unfold countCreates
    rw [List.countP_append, List.countP_append, hcPatch, hcPost, hcMem]

theorem c1_witness :
    strTruthy (lookup_discord_id (str_trim "Ash") wPair.store) = true ∧
    (route_match_event "Ash" "Misty" wPair).1 = .postedNew "t0" ∧
    (route_match_event "Ash" "Misty"
      (route_match_event "Ash" "Misty" wPair).2.1).1 =
        .postedExisting "t0" := by
  have h := c1_route_idempotent_reuse wPair "Ash" "Misty"
    (by decide) (by decide) (by decide) (by decide) (by decide) rfl rfl
  exact ⟨by decide, h.1, h.2.2.1⟩
